import Mathlib

/-!
Verification development for the standings-table sync script
(`src/simple-sync.js`).  The file concatenates three revisions of the
script; in JavaScript the later function declarations shadow the earlier
ones, so the effective program is the third revision: `parseTable`
(lines 726-815), `buildFieldMap` (lines 850-879) and `sync`
(lines 968-1061).  The definitions below are a shallow embedding of that
effective code over `List Char`; regular-expression operations are
translated to their deterministic leftmost-match semantics on the
concrete patterns the script uses.
-/

namespace NihlSync

set_option maxRecDepth 200000

/-- Converts a string literal to the character-list representation used
by the embedding. -/
def str (s : String) : List Char := s.data

/-- Whitespace set of JavaScript (`\s`, `String.prototype.trim`):
WhiteSpace plus LineTerminator code points. -/
def jsIsWhite (c : Char) : Bool :=
  c == ' ' || c == '\t' || c == '\n' || c == '\r' || c == '\x0b' || c == '\x0c' ||
  c == '\u00a0' || c == '\ufeff' || c == '\u1680' ||
  (decide (0x2000 ≤ c.toNat) && decide (c.toNat ≤ 0x200a)) ||
  c == '\u2028' || c == '\u2029' || c == '\u202f' || c == '\u205f' || c == '\u3000'

/-- Tests whether `pat` starts the list `s`, comparing characters through
the normalisation `f` (`id` for exact search, `Char.toLower` for the
case-insensitive `i` regex flag). -/
def startsWithBy (f : Char → Char) : List Char → List Char → Bool
  | [], _ => true
  | _ :: _, [] => false
  | p :: ps, c :: cs => (f p == f c) && startsWithBy f ps cs

/-- Index of the first occurrence of `pat` in `s` under the character
normalisation `f`; `none` when there is no occurrence.  This is the
leftmost-match rule of the regex engine for a literal pattern. -/
def findIdxBy (f : Char → Char) (pat : List Char) : List Char → Option Nat
  | [] => if startsWithBy f pat [] then some 0 else none
  | c :: t =>
    if startsWithBy f pat (c :: t) then some 0
    else (findIdxBy f pat t).map (fun n => n + 1)

/-- Case-insensitive literal search (a `/i` regex made of literal
characters). -/
def findCi (pat s : List Char) : Option Nat := findIdxBy Char.toLower pat s

/-- Case-sensitive literal search (`String.prototype.includes`,
`String.prototype.replace` with a literal global pattern). -/
def findStr (pat s : List Char) : Option Nat := findIdxBy (fun c => c) pat s

def markerText : List Char := str "WILKINSON TABLE"
def tableOpen : List Char := str "<table"
def tableClose : List Char := str "</table>"
def trOpen : List Char := str "<tr"
def trClose : List Char := str "</tr>"
def tdOpen : List Char := str "<td"
def tdClose : List Char := str "</td>"
def thMark : List Char := str "<th"
def nbspEnt : List Char := str "&nbsp;"
def ampEnt : List Char := str "&amp;"

/-- The script uses `parseInt(x)` (radix auto-detected): skip leading
whitespace, read an optional sign, then a hexadecimal magnitude after a
`0x`/`0X` prefix or a decimal magnitude otherwise; `NaN` (here `none`)
when no digit follows. -/
def isDecDigit (c : Char) : Bool := decide ('0' ≤ c) && decide (c ≤ '9')

def decVal (c : Char) : Nat := c.toNat - '0'.toNat

def isHexDigit (c : Char) : Bool :=
  isDecDigit c || (decide ('a' ≤ c) && decide (c ≤ 'f')) ||
    (decide ('A' ≤ c) && decide (c ≤ 'F'))

def hexVal (c : Char) : Nat :=
  if isDecDigit c then decVal c
  else if decide ('a' ≤ c) then c.toNat - 'a'.toNat + 10
  else c.toNat - 'A'.toNat + 10

def digitsValGo (isD : Char → Bool) (dv : Char → Nat) (base : Nat) :
    List Char → Nat → Nat
  | [], acc => acc
  | c :: cs, acc =>
    if isD c then digitsValGo isD dv base cs (acc * base + dv c) else acc

/-- Value of the longest leading digit run; `none` when the run is
empty (which is what makes `parseInt` return `NaN`). -/
def digitsLeadVal (isD : Char → Bool) (dv : Char → Nat) (base : Nat) :
    List Char → Option Nat
  | [] => none
  | c :: cs => if isD c then some (digitsValGo isD dv base cs (dv c)) else none

/-- Unsigned part of `parseInt` after sign processing. -/
def parseIntMag : List Char → Option Nat
  | '0' :: 'x' :: v => digitsLeadVal isHexDigit hexVal 16 v
  | '0' :: 'X' :: v => digitsLeadVal isHexDigit hexVal 16 v
  | v => digitsLeadVal isDecDigit decVal 10 v

/-- JavaScript `parseInt(s)` with the default radix; `none` models `NaN`. -/
def parseIntJS (s : List Char) : Option Int :=
  match s.dropWhile jsIsWhite with
  | '-' :: u => (parseIntMag u).map (fun n => -(n : Int))
  | '+' :: u => (parseIntMag u).map (fun n => (n : Int))
  | u => (parseIntMag u).map (fun n => (n : Int))

/-- JavaScript `parseInt(x) || 0`: `NaN` is falsy and becomes `0`; a
parsed `0` is also falsy and stays `0`. -/
def jsOr0 (o : Option Int) : Int :=
  match o with
  | none => 0
  | some v => v

/-- Removes every `/<[^>]*>/g` match: a `<`, a maximal run of
non-`>` characters, then the first following `>`.  A `<` with no later
`>` matches nothing, so the remainder is copied unchanged.  Each step
consumes at least two characters, so `fuel = s.length` in `stripTags`
never runs out. -/
def stripTagsGo : Nat → List Char → List Char
  | 0, s => s
  | fuel + 1, s =>
    match findStr ['<'] s with
    | none => s
    | some i =>
      match findStr ['>'] (s.drop (i + 1)) with
      | none => s
      | some j => s.take i ++ stripTagsGo fuel (s.drop (i + 1 + j + 1))

def stripTags (s : List Char) : List Char := stripTagsGo s.length s

/-- Global replacement of a literal pattern (`String.prototype.replace`
with a `/g` literal regex): leftmost, non-overlapping.  The patterns the
script uses are non-empty, so each step consumes at least one character
and `fuel = s.length` suffices. -/
def replaceAllLitGo (pat rep : List Char) : Nat → List Char → List Char
  | 0, s => s
  | fuel + 1, s =>
    match findStr pat s with
    | none => s
    | some i => s.take i ++ rep ++ replaceAllLitGo pat rep fuel (s.drop (i + pat.length))

def replaceAllLit (pat rep : List Char) (s : List Char) : List Char :=
  replaceAllLitGo pat rep s.length s

/-- JavaScript `String.prototype.trim`. -/
def jsTrim (s : List Char) : List Char :=
  (((s.dropWhile jsIsWhite).reverse).dropWhile jsIsWhite).reverse

/-- Cell clean-up applied in the cell-extraction loop
(src/simple-sync.js:769-773): strip tags, decode `&nbsp;` to a space
and `&amp;` to `&`, then trim. -/
def normalizeCell (c : List Char) : List Char :=
  jsTrim (replaceAllLit ampEnt ['&'] (replaceAllLit nbspEnt [' '] (stripTags c)))

/-- First match of `/<table[\s\S]*?<\/table>/i` in `s`
(src/simple-sync.js:740): the first case-insensitive `<table`,
lazily extended to the first following `</table>`. -/
def firstTableFrom (s : List Char) : Option (List Char) :=
  match findCi tableOpen s with
  | none => none
  | some i =>
    match findCi tableClose ((s.drop i).drop 6) with
    | none => none
    | some k => some ((s.drop i).take (6 + k + 8))

/-- All matches of `/<tr[\s\S]*?<\/tr>/gi` (src/simple-sync.js:750):
non-overlapping lazy row fragments in document order.  Each match is at
least eight characters long, so `fuel = s.length` in `findRows` never
runs out. -/
def findRowsGo : Nat → List Char → List (List Char)
  | 0, _ => []
  | fuel + 1, s =>
    match findCi trOpen s with
    | none => []
    | some i =>
      match findCi trClose ((s.drop i).drop 3) with
      | none => []
      | some k =>
        ((s.drop i).take (3 + k + 5)) :: findRowsGo fuel ((s.drop i).drop (3 + k + 5))

def findRows (s : List Char) : List (List Char) := findRowsGo s.length s

/-- The capture loop of `/<td[^>]*>([\s\S]*?)<\/td>/gi`
(src/simple-sync.js:764-775): each cell is the lazily captured content
between the first `>` after a `<td` and the first following `</td>`,
cleaned with `normalizeCell`.  Each match is at least nine characters
long, so `fuel = s.length` in `cellsOfRow` never runs out. -/
def cellsOfRowGo : Nat → List Char → List (List Char)
  | 0, _ => []
  | fuel + 1, s =>
    match findCi tdOpen s with
    | none => []
    | some i =>
      match findStr ['>'] ((s.drop i).drop 3) with
      | none => []
      | some k =>
        match findCi tdClose (((s.drop i).drop 3).drop (k + 1)) with
        | none => []
        | some m =>
          normalizeCell ((((s.drop i).drop 3).drop (k + 1)).take m) ::
            cellsOfRowGo fuel ((((s.drop i).drop 3).drop (k + 1)).drop (m + 5))

def cellsOfRow (s : List Char) : List (List Char) := cellsOfRowGo s.length s

/-- One parsed standings row (the object pushed at
src/simple-sync.js:799-810). -/
structure TeamRecord where
  name : List Char
  position : Int
  played : Int
  wins : Int
  otWins : Int
  otLosses : Int
  losses : Int
  goalsFor : Int
  goalsAgainst : Int
  points : Int
deriving DecidableEq

/-- Test used by the position scan (src/simple-sync.js:786-787):
`parseInt` of the cell is a number strictly above 0 and at most 20. -/
def isPos (c : List Char) : Bool :=
  match parseIntJS c with
  | none => false
  | some v => decide (0 < v) && decide (v ≤ 20)

/-- Scan of the first three cells for the position cell
(src/simple-sync.js:784-791): first index `i < min(length, 3)` whose
cell passes `isPos`; the loop breaks at the first hit. -/
def positionScan (cells : List (List Char)) : Option Nat :=
  match cells with
  | [] => none
  | c0 :: rest0 =>
    if isPos c0 then some 0
    else
      match rest0 with
      | [] => none
      | c1 :: rest1 =>
        if isPos c1 then some 1
        else
          match rest1 with
          | [] => none
          | c2 :: _ => if isPos c2 then some 2 else none

/-- Body of the row loop after cell extraction
(src/simple-sync.js:777-811): skip empty cell lists, locate the
position cell, and push a record when at least `dataStart + 8` cells
exist.  `name` is taken verbatim; each stat is `parseInt(cell) || 0`;
the position cell re-parses with plain `parseInt` (guaranteed by the
scan, so the `getD 0` default is unreachable). -/
def parseRowCells (cells : List (List Char)) : Option TeamRecord :=
  if cells.isEmpty then none
  else
    match positionScan cells with
    | none => none
    | some p =>
      if p + 2 + 8 ≤ cells.length then
        some ⟨cells.getD (p + 1) [],
          (parseIntJS (cells.getD p [])).getD 0,
          jsOr0 (parseIntJS (cells.getD (p + 2) [])),
          jsOr0 (parseIntJS (cells.getD (p + 3) [])),
          jsOr0 (parseIntJS (cells.getD (p + 4) [])),
          jsOr0 (parseIntJS (cells.getD (p + 5) [])),
          jsOr0 (parseIntJS (cells.getD (p + 6) [])),
          jsOr0 (parseIntJS (cells.getD (p + 7) [])),
          jsOr0 (parseIntJS (cells.getD (p + 8) [])),
          jsOr0 (parseIntJS (cells.getD (p + 9) []))⟩
      else none

/-- One iteration of the row loop (src/simple-sync.js:759-812): rows
containing a case-sensitive `<th` are skipped, otherwise the cells are
extracted and handed to `parseRowCells`. -/
def rowToRecord (row : List Char) : Option TeamRecord :=
  if (findStr thMark row).isSome then none
  else parseRowCells (cellsOfRow row)

/-- The row loop itself: malformed rows contribute nothing, parsed rows
are appended in document order. -/
def parseRows : List (List Char) → List TeamRecord
  | [] => []
  | row :: rest =>
    match rowToRecord row with
    | none => parseRows rest
    | some r => r :: parseRows rest

/-- The effective `parseTable` (src/simple-sync.js:726-815): find the
case-insensitive `WILKINSON TABLE` marker (no marker: no teams), take
the first lazily matched table after it (no table: no teams), and run
the row loop over that table's rows. -/
def parseTable (html : List Char) : List TeamRecord :=
  match findCi markerText html with
  | none => []
  | some i =>
    match firstTableFrom (html.drop i) with
    | none => []
    | some firstTable => parseRows (findRows firstTable)

/-- Composition of the marker search and the table match, named for the
statements below. -/
def firstTableAfterMarker (html : List Char) : Option (List Char) :=
  match findCi markerText html with
  | none => none
  | some i => firstTableFrom (html.drop i)

/-- Decision taken by `sync` at src/simple-sync.js:994-997: when
`parseTable` yields no teams the run calls `process.exit(1)`. -/
def syncAbortsOnEmpty (html : List Char) : Bool :=
  (parseTable html).isEmpty

/-- Modelled from the spec: the Table Locator of section 4.4, which the
source does not implement (the source locates a single table after a
fixed marker).  Enumerates every non-overlapping, minimally-bounded
table fragment in document order. -/
def extractAllTablesSpecGo : Nat → List Char → List (List Char)
  | 0, _ => []
  | fuel + 1, s =>
    match findCi tableOpen s with
    | none => []
    | some i =>
      match findCi tableClose ((s.drop i).drop 6) with
      | none => []
      | some k =>
        ((s.drop i).take (6 + k + 8)) ::
          extractAllTablesSpecGo fuel ((s.drop i).drop (6 + k + 8))

def extractAllTablesSpec (s : List Char) : List (List Char) :=
  extractAllTablesSpecGo s.length s

/-- Name normalisation used by the spec's Table Selector for matching
against the reference name set: trimmed and lower-cased. -/
def normNameForMatch (n : List Char) : List Char :=
  (jsTrim n).map Char.toLower

/-- Modelled from the spec: the score of section 4.5, which the source
does not implement — the count of records whose normalised name occurs
in the (normalised) reference name set. -/
def scoreSpec (records : List TeamRecord) (refNames : List (List Char)) : Nat :=
  (records.filter
    (fun r => (refNames.map normNameForMatch).contains (normNameForMatch r.name))).length

/-- Modelled from the spec: the Table Selector of section 4.5, which the
source does not implement.  Candidates yielding no records are skipped;
the strictly highest score wins, ties keeping the first-seen candidate;
a best score of zero is NotFound (`none`).  Indices are 1-based. -/
def selectBestAux (refNames : List (List Char)) :
    List (List Char) → Nat → Option (List TeamRecord × Nat × Nat) →
      Option (List TeamRecord × Nat × Nat)
  | [], _, best => best
  | c :: cs, idx, best =>
    let recs := parseRows (findRows c)
    if recs.isEmpty then selectBestAux refNames cs (idx + 1) best
    else
      let sc := scoreSpec recs refNames
      match best with
      | none => selectBestAux refNames cs (idx + 1) (some (recs, sc, idx))
      | some (brecs, bsc, bidx) =>
        if bsc < sc then selectBestAux refNames cs (idx + 1) (some (recs, sc, idx))
        else selectBestAux refNames cs (idx + 1) (some (brecs, bsc, bidx))

def selectBestTableSpec (cands : List (List Char)) (refNames : List (List Char)) :
    Option (List TeamRecord × Nat × Nat) :=
  match selectBestAux refNames cands 1 none with
  | none => none
  | some (recs, sc, idx) => if sc = 0 then none else some (recs, sc, idx)

/-- One field of the remote collection schema as `buildFieldMap` reads
it: `field.displayName`, `field.name` and `field.slug`, the first two
possibly absent (or empty, which JavaScript treats the same way through
`||`). -/
structure SchemaField where
  displayName : Option String
  name : Option String
  slug : String
deriving DecidableEq

/-- The mapping object built by `buildFieldMap`
(src/simple-sync.js:850-879); a key that is never assigned stays
absent. -/
structure FieldMap where
  position : Option String
  played : Option String
  wins : Option String
  otWins : Option String
  otLosses : Option String
  losses : Option String
  goalsFor : Option String
  goalsAgainst : Option String
  points : Option String
deriving DecidableEq

def fmEmpty : FieldMap := ⟨none, none, none, none, none, none, none, none, none⟩

/-- JavaScript `a || b` for an optional string: an absent or empty
value is falsy and falls through to the default. -/
def jsOrElse (o : Option String) (d : String) : String :=
  match o with
  | none => d
  | some v => if v = "" then d else v

/-- The `displayName` the loop actually works with
(src/simple-sync.js:858): `field.displayName || field.name || slug`. -/
def effectiveDisplayName (f : SchemaField) : String :=
  jsOrElse f.displayName (jsOrElse f.name f.slug)

/-- The normalisation at src/simple-sync.js:861: lower-case, then drop
every `\s` character (the `replace(/\s+/g, ...)` with an empty
replacement).  Lowering is the ASCII one, which covers the nine target
names. -/
def normNameJS (s : String) : String :=
  String.mk ((s.data.map Char.toLower).filter (fun c => !(jsIsWhite c)))

/-- One iteration of the schema-field loop
(src/simple-sync.js:856-872): nine independent conditional assignments,
one per target attribute name.  The conditions are on the same value
and the targets are distinct fields, so the sequential JavaScript
assignments are the same as this simultaneous record build. -/
def applyField (m : FieldMap) (f : SchemaField) : FieldMap :=
  let n := normNameJS (effectiveDisplayName f)
  ⟨if n = "position" then some f.slug else m.position,
   if n = "played" then some f.slug else m.played,
   if n = "wins" then some f.slug else m.wins,
   if n = "otwins" then some f.slug else m.otWins,
   if n = "otlosses" then some f.slug else m.otLosses,
   if n = "losses" then some f.slug else m.losses,
   if n = "goalsfor" then some f.slug else m.goalsFor,
   if n = "goalsagainst" then some f.slug else m.goalsAgainst,
   if n = "points" then some f.slug else m.points⟩

/-- The effective `buildFieldMap` (src/simple-sync.js:850-879) on the
schema's field list (`schema.fields || []` is modelled by taking the
list itself as input). -/
def buildFieldMap (fields : List SchemaField) : FieldMap :=
  fields.foldl applyField fmEmpty

/-- The nine attribute keys of the field map. -/
inductive FMKey where
  | position | played | wins | otWins | otLosses | losses
  | goalsFor | goalsAgainst | points
deriving DecidableEq

/-- The normalised display-name each key is matched against
(src/simple-sync.js:863-871). -/
def keyName : FMKey → String
  | FMKey.position => "position"
  | FMKey.played => "played"
  | FMKey.wins => "wins"
  | FMKey.otWins => "otwins"
  | FMKey.otLosses => "otlosses"
  | FMKey.losses => "losses"
  | FMKey.goalsFor => "goalsfor"
  | FMKey.goalsAgainst => "goalsagainst"
  | FMKey.points => "points"

/-- Projection of a field-map entry by key. -/
def fmGet (m : FieldMap) : FMKey → Option String
  | FMKey.position => m.position
  | FMKey.played => m.played
  | FMKey.wins => m.wins
  | FMKey.otWins => m.otWins
  | FMKey.otLosses => m.otLosses
  | FMKey.losses => m.losses
  | FMKey.goalsFor => m.goalsFor
  | FMKey.goalsAgainst => m.goalsAgainst
  | FMKey.points => m.points

/-! Concrete example inputs used by the counterexamples and witnesses. -/

/-- A standings table whose single row names `Aaa`. -/
def tAaa : List Char :=
  str "<table><tr><td>1</td><td>Aaa</td><td>2</td><td>2</td><td>0</td><td>0</td><td>0</td><td>9</td><td>3</td><td>6</td></tr></table>"

/-- A standings table whose single row names `Falcons`. -/
def tFal : List Char :=
  str "<table><tr><td>1</td><td>Falcons</td><td>2</td><td>2</td><td>0</td><td>0</td><td>0</td><td>9</td><td>3</td><td>6</td></tr></table>"

def recAaa : TeamRecord := ⟨str "Aaa", 1, 2, 2, 0, 0, 0, 9, 3, 6⟩

def recFal : TeamRecord := ⟨str "Falcons", 1, 2, 2, 0, 0, 0, 9, 3, 6⟩

/-- A document with the marker followed by the `Aaa` table and then the
`Falcons` table. -/
def exC1doc : List Char := str "WILKINSON TABLE" ++ tAaa ++ tFal

/-- A reference name set containing only `Falcons`. -/
def refsC1 : List (List Char) := [str "Falcons"]

/-- A document that contains a perfectly good standings table but no
`WILKINSON TABLE` marker. -/
def exC2doc : List Char := tFal

/-- A fixture-style row: leading 1-20 integer, then score pairs. -/
def fixtureRow : List Char :=
  str "<tr><td>3</td><td>Falcons</td><td>3-1</td><td>2-2</td><td>1-0</td><td>0-2</td><td>5-5</td><td>2-3</td><td>4-1</td><td>0-0</td></tr>"

def fixtureCells : List (List Char) :=
  [str "3", str "Falcons", str "3-1", str "2-2", str "1-0", str "0-2",
   str "5-5", str "2-3", str "4-1", str "0-0"]

def fixtureRec : TeamRecord := ⟨str "Falcons", 3, 3, 2, 1, 0, 5, 2, 4, 0⟩

/-- A row with a negative played count. -/
def negRow : List Char :=
  str "<tr><td>1</td><td>Falcons</td><td>-5</td><td>0</td><td>0</td><td>0</td><td>0</td><td>0</td><td>0</td><td>0</td></tr>"

def negRec : TeamRecord := ⟨str "Falcons", 1, -5, 0, 0, 0, 0, 0, 0, 0⟩

/-- Cells with an unparsable stat cell, for the default-to-zero witness. -/
def cells4w : List (List Char) :=
  [str "1", str "X", str "abc", str "0", str "0", str "0", str "0",
   str "0", str "0", str "0"]

def rec4w : TeamRecord := ⟨str "X", 1, 0, 0, 0, 0, 0, 0, 0, 0⟩

/-- The spec's Falcons row with a blank leading cell, and without it. -/
def c6a : List (List Char) :=
  [str "", str "3", str "Falcons", str "10", str "7", str "1", str "0",
   str "2", str "40", str "20", str "22"]

def c6b : List (List Char) :=
  [str "3", str "Falcons", str "10", str "7", str "1", str "0",
   str "2", str "40", str "20", str "22"]

def rec6 : TeamRecord := ⟨str "Falcons", 3, 10, 7, 1, 0, 2, 40, 20, 22⟩

/-- A row whose name cell is empty. -/
def emptyNameRow : List Char :=
  str "<tr><td>3</td><td></td><td>10</td><td>7</td><td>1</td><td>0</td><td>2</td><td>40</td><td>20</td><td>22</td></tr>"

def cells7w : List (List Char) :=
  [str "3", str "", str "10", str "7", str "1", str "0",
   str "2", str "40", str "20", str "22"]

def rec7 : TeamRecord := ⟨[], 3, 10, 7, 1, 0, 2, 40, 20, 22⟩

/-- A schema whose single field has no display name and no name, only
the slug `points`. -/
def exC9fields : List SchemaField := [⟨none, none, "points"⟩]

/-- Document for the table-shape witness. -/
def docW : List Char := str "WILKINSON TABLE<table>x</table>"

def tW : List Char := str "<table>x</table>"

/-- A document with no marker and no table. -/
def ex5w : List Char := str "no marker here"

/-! Helper lemmas. -/

theorem startsWithBy_length_le (f : Char → Char) :
    ∀ pat s : List Char, startsWithBy f pat s = true → pat.length ≤ s.length := by
  intro pat
  induction pat with
  | nil => intro s _; exact Nat.zero_le _
  | cons p ps ih =>
    intro s h
    cases s with
    | nil => simp [startsWithBy] at h
    | cons c cs =>
      simp only [startsWithBy, Bool.and_eq_true] at h
      simpa [List.length_cons, Nat.succ_le_succ_iff] using ih cs h.2

theorem findIdxBy_bound (f : Char → Char) (pat : List Char) :
    ∀ s i, findIdxBy f pat s = some i → i + pat.length ≤ s.length := by
  intro s
  induction s with
  | nil =>
    intro i h
    simp only [findIdxBy] at h
    by_cases hs : startsWithBy f pat [] = true
    · simp [hs] at h
      have := startsWithBy_length_le f pat [] hs
      omega
    · simp [hs] at h
  | cons c t ih =>
    intro i h
    simp only [findIdxBy] at h
    by_cases hs : startsWithBy f pat (c :: t) = true
    · simp [hs] at h
      have := startsWithBy_length_le f pat (c :: t) hs
      omega
    · simp only [hs, if_false] at h
      cases hfj : findIdxBy f pat t with
      | none => rw [hfj] at h; simp at h
      | some j =>
        rw [hfj] at h
        have hji : j + 1 = i := by simpa using h
        have := ih j hfj
        simp only [List.length_cons]
        omega

theorem findIdxBy_of_starts (f : Char → Char) (pat : List Char) :
    ∀ s, startsWithBy f pat s = true → findIdxBy f pat s = some 0 := by
  intro s hs
  cases s with
  | nil => simp [findIdxBy, hs]
  | cons c t => simp [findIdxBy, hs]

theorem findIdxBy_starts (f : Char → Char) (pat : List Char) :
    ∀ s i, findIdxBy f pat s = some i → startsWithBy f pat (s.drop i) = true := by
  intro s
  induction s with
  | nil =>
    intro i h
    simp only [findIdxBy] at h
    by_cases hs : startsWithBy f pat [] = true
    · simp only [hs, if_true, Option.some_inj] at h
      subst h
      simpa using hs
    · simp [hs] at h
  | cons c t ih =>
    intro i h
    simp only [findIdxBy] at h
    by_cases hs : startsWithBy f pat (c :: t) = true
    · simp only [hs, if_true, Option.some_inj] at h
      subst h
      simpa using hs
    · simp only [hs, if_false] at h
      cases hfj : findIdxBy f pat t with
      | none => rw [hfj] at h; simp at h
      | some j =>
        rw [hfj] at h
        have hji : j + 1 = i := by simpa using h
        subst hji
        simpa using ih j hfj

theorem startsWithBy_of_take_eq (f : Char → Char) :
    ∀ (pat s u : List Char), s.take pat.length = u.take pat.length →
      startsWithBy f pat s = startsWithBy f pat u := by
  intro pat
  induction pat with
  | nil => intro s u _; rfl
  | cons p ps ih =>
    intro s u h
    cases s with
    | nil =>
      cases u with
      | nil => rfl
      | cons d us => simp [List.length_cons] at h
    | cons c ss =>
      cases u with
      | nil => simp [List.length_cons] at h
      | cons d us =>
        simp only [List.length_cons, List.take_succ_cons, List.cons.injEq] at h
        simp only [startsWithBy, h.1, ih ss us h.2]

theorem startsWithBy_take_of_le (f : Char → Char) (pat s : List Char) (n : Nat)
    (hn : pat.length ≤ n) (h : startsWithBy f pat s = true) :
    startsWithBy f pat (s.take n) = true := by
  have heq := startsWithBy_of_take_eq f pat (s.take n) s
    (by rw [List.take_take, Nat.min_eq_left hn])
  rw [heq]
  exact h

theorem findIdxBy_take (f : Char → Char) (pat : List Char) :
    ∀ s k, findIdxBy f pat s = some k →
      findIdxBy f pat (s.take (k + pat.length)) = some k := by
  intro s
  induction s with
  | nil =>
    intro k h
    simpa using h
  | cons c t ih =>
    intro k h
    simp only [findIdxBy] at h
    by_cases hs : startsWithBy f pat (c :: t) = true
    · simp only [hs, if_true, Option.some_inj] at h
      subst h
      exact findIdxBy_of_starts f pat _
        (startsWithBy_take_of_le f pat (c :: t) _ (by omega) hs)
    · simp only [hs, if_false] at h
      cases hfj : findIdxBy f pat t with
      | none => rw [hfj] at h; simp at h
      | some j =>
        rw [hfj] at h
        have hji : j + 1 = k := by simpa using h
        subst hji
        have hsf : startsWithBy f pat (c :: t) = false := by
          simpa using hs
        have htake : (c :: t).take (j + 1 + pat.length) =
            c :: t.take (j + pat.length) := by
          rw [Nat.add_right_comm j 1 pat.length]
          exact List.take_succ_cons
        rw [htake]
        have hs2 : startsWithBy f pat (c :: t.take (j + pat.length)) = false := by
          rw [startsWithBy_of_take_eq f pat (c :: t.take (j + pat.length)) (c :: t) ?_]
          · exact hsf
          · cases hp : pat with
            | nil => rfl
            | cons p ps =>
              simp only [List.length_cons, List.take_succ_cons, List.cons.injEq,
                List.take_take, true_and]
              rw [Nat.min_eq_left]
              have : pat.length = ps.length + 1 := by rw [hp]; rfl
              omega
        rw [show findIdxBy f pat (c :: t.take (j + pat.length)) =
            if startsWithBy f pat (c :: t.take (j + pat.length)) then some 0
            else (findIdxBy f pat (t.take (j + pat.length))).map (fun n => n + 1)
          from rfl]
        rw [hs2]
        simp only [Bool.false_eq_true, if_false, ih j hfj, Option.map_some]
        rfl

theorem parseRows_eq_filterMap :
    ∀ rows : List (List Char), parseRows rows = rows.filterMap rowToRecord := by
  intro rows
  induction rows with
  | nil => rfl
  | cons row rest ih =>
    cases h : rowToRecord row with
    | none => simp [parseRows, List.filterMap_cons, h, ih]
    | some r => simp [parseRows, List.filterMap_cons, h, ih]

theorem isPos_parse :
    ∀ c, isPos c = true → ∃ v, parseIntJS c = some v ∧ 0 < v ∧ v ≤ 20 := by
  intro c h
  unfold isPos at h
  cases hp : parseIntJS c with
  | none => rw [hp] at h; simp at h
  | some v =>
    rw [hp] at h
    simp only [Bool.and_eq_true, decide_eq_true_eq] at h
    exact ⟨v, rfl, h.1, h.2⟩

theorem positionScan_isPos :
    ∀ cells p, positionScan cells = some p → isPos (cells.getD p []) = true := by
  intro cells p h
  unfold positionScan at h
  cases cells with
  | nil => simp at h
  | cons c0 rest0 =>
    by_cases h0 : isPos c0 = true
    · simp only [h0, if_true, Option.some_inj] at h
      subst h
      simpa using h0
    · simp only [h0, Bool.false_eq_true, if_false] at h
      cases rest0 with
      | nil => simp at h
      | cons c1 rest1 =>
        by_cases h1 : isPos c1 = true
        · simp only [h1, if_true, Option.some_inj] at h
          subst h
          simpa using h1
        · simp only [h1, Bool.false_eq_true, if_false] at h
          cases rest1 with
          | nil => simp at h
          | cons c2 rest2 =>
            by_cases h2 : isPos c2 = true
            · simp only [h2, if_true, Option.some_inj] at h
              subst h
              simpa using h2
            · simp [h2] at h

theorem fmGet_applyField (m : FieldMap) (f : SchemaField) (k : FMKey) :
    fmGet (applyField m f) k =
      if normNameJS (effectiveDisplayName f) = keyName k then some f.slug
      else fmGet m k := by
  cases k <;> rfl

/-! Claim theorems. -/

/-- Claim C1, amended: the standings table is not chosen by scoring
candidates against a reference name set; `parseTable` returns the
records of the first lazily matched table at or after the first
case-insensitive occurrence of `WILKINSON TABLE`, and the empty
sequence when the marker is absent. -/
theorem parseTable_selects_by_marker : ∀ html : List Char,
    (findCi markerText html = none → parseTable html = []) ∧
    (∀ i, findCi markerText html = some i →
      parseTable html =
        (match firstTableFrom (html.drop i) with
         | none => []
         | some t => parseRows (findRows t))) := by
  intro html
  constructor
  · intro h
    simp [parseTable, h]
  · intro i h
    simp [parseTable, h]

/-- Witness for `parseTable_selects_by_marker` at the two-table
document. -/
theorem parseTable_selects_by_marker_witness :
    parseTable exC1doc =
      (match firstTableFrom (exC1doc.drop 0) with
       | none => []
       | some t => parseRows (findRows t)) :=
  (parseTable_selects_by_marker exC1doc).2 0 (by decide)

/-- Counterexample to claim C1: on `exC1doc` the program keeps the
first table after the marker (`Aaa`, score 0 against the reference
set), even though the spec's scoring selector would pick the second
candidate (`Falcons`, score 1). -/
theorem scoring_not_used_cex :
    parseTable exC1doc = [recAaa] ∧
    scoreSpec [recAaa] refsC1 = 0 ∧
    selectBestTableSpec (extractAllTablesSpec exC1doc) refsC1 =
      some ([recFal], 1, 2) ∧
    recAaa ≠ recFal := by decide

/-- Claim C2, amended: extraction is marker-relative and yields at most
one fragment: when the marker is absent `parseTable` is empty, and the
single fragment it otherwise works on is minimally bounded — it starts
with a case-insensitive `<table` and ends at the first following
case-insensitive `</table>`. -/
theorem single_marker_table_minimal : ∀ html : List Char,
    (findCi markerText html = none → parseTable html = []) ∧
    (∀ i t, findCi markerText html = some i →
      firstTableFrom (html.drop i) = some t →
      startsWithBy Char.toLower tableOpen t = true ∧
      ∃ k, findCi tableClose (t.drop 6) = some k ∧ t.length = 6 + k + 8) := by
  intro html
  constructor
  · intro h
    simp [parseTable, h]
  · intro i t hm hf
    unfold firstTableFrom at hf
    cases ho : findCi tableOpen (html.drop i) with
    | none => rw [ho] at hf; simp at hf
    | some a =>
      rw [ho] at hf
      have hf2 : (match findCi tableClose (((html.drop i).drop a).drop 6) with
          | none => none
          | some k => some (((html.drop i).drop a).take (6 + k + 8))) = some t := hf
      cases hc : findCi tableClose (((html.drop i).drop a).drop 6) with
      | none => rw [hc] at hf2; simp at hf2
      | some k =>
        rw [hc] at hf2
        simp only [Option.some_inj] at hf2
        subst hf2
        have hsw : startsWithBy Char.toLower tableOpen ((html.drop i).drop a) = true :=
          findIdxBy_starts Char.toLower tableOpen (html.drop i) a ho
        have hlen6 : tableOpen.length = 6 := rfl
        have hlen8 : tableClose.length = 8 := rfl
        have hrest6 : 6 ≤ ((html.drop i).drop a).length := by
          have := startsWithBy_length_le Char.toLower tableOpen _ hsw
          omega
        have hbound := findIdxBy_bound Char.toLower tableClose _ k hc
        rw [hlen8] at hbound
        refine ⟨?_, k, ?_, ?_⟩
        · exact startsWithBy_take_of_le Char.toLower tableOpen _ _ (by omega) hsw
        · have hdt : (((html.drop i).drop a).take (6 + k + 8)).drop 6 =
              (((html.drop i).drop a).drop 6).take (k + 8) := by
            rw [show 6 + k + 8 = 6 + (k + 8) by omega]
            exact (List.take_drop 6 (k + 8) _).symm
          rw [hdt]
          have := findIdxBy_take Char.toLower tableClose _ k hc
          rw [hlen8] at this
          exact this
        · rw [List.length_take]
          rw [List.length_drop] at hbound
          omega

/-- Witness for `single_marker_table_minimal` at a small document. -/
theorem single_marker_table_minimal_witness :
    startsWithBy Char.toLower tableOpen tW = true ∧
    ∃ k, findCi tableClose (tW.drop 6) = some k ∧ tW.length = 6 + k + 8 :=
  (single_marker_table_minimal docW).2 0 tW (by decide) (by decide)

/-- Counterexample to claim C2: a document consisting of one standings
table but lacking the marker; the spec's locator enumerates the table
(and its rows parse), yet the program extracts nothing. -/
theorem locator_not_all_tables_cex :
    parseTable exC2doc = [] ∧
    extractAllTablesSpec exC2doc = [tFal] ∧
    parseRows (findRows tFal) = [recFal] := by decide

/-- Claim C5: when no table is found, or the single candidate yields no
records, the core returns the empty sequence, and the reference `sync`
then aborts with a non-zero exit status. -/
theorem notfound_empty_and_abort : ∀ html : List Char,
    (firstTableAfterMarker html = none → parseTable html = []) ∧
    (∀ t, firstTableAfterMarker html = some t →
      parseRows (findRows t) = [] → parseTable html = []) ∧
    (parseTable html = [] → syncAbortsOnEmpty html = true) := by
  intro html
  refine ⟨?_, ?_, ?_⟩
  · intro h
    unfold firstTableAfterMarker at h
    cases hm : findCi markerText html with
    | none => simp [parseTable, hm]
    | some i =>
      rw [hm] at h
      have h2 : firstTableFrom (html.drop i) = none := h
      simp [parseTable, hm, h2]
  · intro t h hrows
    unfold firstTableAfterMarker at h
    cases hm : findCi markerText html with
    | none => simp [parseTable, hm]
    | some i =>
      rw [hm] at h
      have h2 : firstTableFrom (html.drop i) = some t := h
      simp [parseTable, hm, h2, hrows]
  · intro h
    unfold syncAbortsOnEmpty
    rw [h]
    rfl

/-- Witness for `notfound_empty_and_abort` at a markerless document. -/
theorem notfound_empty_and_abort_witness :
    parseTable ex5w = [] ∧ syncAbortsOnEmpty ex5w = true :=
  ⟨(notfound_empty_and_abort ex5w).1 (by decide),
   (notfound_empty_and_abort ex5w).2.2
     ((notfound_empty_and_abort ex5w).1 (by decide))⟩

/-- Claim C8: `parseTable` is total by construction and decomposes
row-wise — each row independently maps to at most one record via
`rowToRecord`, so a malformed row is dropped without affecting the
rest. -/
theorem parseTable_total_structure : ∀ html : List Char,
    parseTable html =
      (match firstTableAfterMarker html with
       | none => []
       | some t => (findRows t).filterMap rowToRecord) := by
  intro html
  cases h1 : findCi markerText html with
  | none => simp [parseTable, firstTableAfterMarker, h1]
  | some i =>
    cases h2 : firstTableFrom (html.drop i) with
    | none => simp [parseTable, firstTableAfterMarker, h1, h2]
    | some t => simp [parseTable, firstTableAfterMarker, h1, h2, parseRows_eq_filterMap]

/-- Claim C3, amended: the row parser applies no all-digit test to the
eight stat cells; a row is emitted as soon as a position cell is found
and at least `dataStart + 8` cells exist, whatever the stat cells
contain (each stat falls back to 0 only through `parseInt(x) || 0`). -/
theorem row_emitted_without_stat_test :
    ∀ cells p, positionScan cells = some p → p + 2 + 8 ≤ cells.length →
      (parseRowCells cells).isSome = true := by
  intro cells p h1 h2
  have hne : cells.isEmpty = false := by
    cases cells with
    | nil => simp [positionScan] at h1
    | cons a l => rfl
  simp [parseRowCells, hne, h1, h2]

/-- Witness for `row_emitted_without_stat_test` at the fixture-style
row of the claim. -/
theorem row_emitted_without_stat_test_witness :
    (parseRowCells fixtureCells).isSome = true :=
  row_emitted_without_stat_test fixtureCells 0 (by decide) (by decide)

/-- Counterexample to claim C3: the fixture-style row
`3 / Falcons / 3-1 / 2-2 / ...` yields a record (with `played = 3`,
`wins = 2`, ...), not zero records. -/
theorem fixture_row_produces_record_cex :
    rowToRecord fixtureRow = some fixtureRec := by decide

/-- Claim C4, amended: every emitted record has an integer position
between 1 and 20, and each stat field is 0 whenever its cell fails to
parse; the stats are plain integers, not necessarily non-negative,
because `parseInt(cell) || 0` keeps a parsed negative value. -/
theorem record_position_bounds_and_defaults :
    ∀ cells p r, positionScan cells = some p → parseRowCells cells = some r →
      (1 ≤ r.position ∧ r.position ≤ 20) ∧
      (parseIntJS (cells.getD (p + 2) []) = none → r.played = 0) ∧
      (parseIntJS (cells.getD (p + 3) []) = none → r.wins = 0) ∧
      (parseIntJS (cells.getD (p + 4) []) = none → r.otWins = 0) ∧
      (parseIntJS (cells.getD (p + 5) []) = none → r.otLosses = 0) ∧
      (parseIntJS (cells.getD (p + 6) []) = none → r.losses = 0) ∧
      (parseIntJS (cells.getD (p + 7) []) = none → r.goalsFor = 0) ∧
      (parseIntJS (cells.getD (p + 8) []) = none → r.goalsAgainst = 0) ∧
      (parseIntJS (cells.getD (p + 9) []) = none → r.points = 0) := by
  intro cells p r h1 h2
  have hne : cells.isEmpty = false := by
    cases cells with
    | nil => simp [positionScan] at h1
    | cons a l => rfl
  unfold parseRowCells at h2
  rw [hne, h1] at h2
  simp only [Bool.false_eq_true, if_false] at h2
  by_cases hlen : p + 2 + 8 ≤ cells.length
  · rw [if_pos hlen] at h2
    simp only [Option.some_inj] at h2
    subst h2
    obtain ⟨v, hv, hv1, hv2⟩ := isPos_parse _ (positionScan_isPos cells p h1)
    refine ⟨?_, ?_, ?_, ?_, ?_, ?_, ?_, ?_, ?_⟩
    · dsimp only
      rw [hv]
      simp only [Option.getD_some]
      omega
    all_goals intro hn
    all_goals dsimp only
    all_goals rw [hn]
    all_goals rfl
  · rw [if_neg hlen] at h2
    simp at h2

/-- Witness for `record_position_bounds_and_defaults` at a row with an
unparsable played cell. -/
theorem record_position_bounds_and_defaults_witness :
    (1 ≤ rec4w.position ∧ rec4w.position ≤ 20) ∧ rec4w.played = 0 :=
  ⟨(record_position_bounds_and_defaults cells4w 0 rec4w (by decide) (by decide)).1,
   (record_position_bounds_and_defaults cells4w 0 rec4w (by decide) (by decide)).2.1
     (by decide)⟩

/-- Counterexample to claim C4: a row whose played cell is `-5`
produces a record with a negative `played`. -/
theorem negative_stat_cex :
    rowToRecord negRow = some negRec ∧ negRec.played < 0 := by decide

/-- Claim C6: the spec's Falcons row parses to the stated record both
with and without the blank leading cell. -/
theorem falcons_row_blank_lead_eq :
    parseRowCells c6a = some rec6 ∧ parseRowCells c6b = some rec6 := by decide

/-- Claim C7, amended: the name cell is not checked for emptiness; the
emitted record's name is the cell immediately after the position cell,
verbatim, even when it is empty. -/
theorem name_taken_verbatim :
    ∀ cells p r, positionScan cells = some p → parseRowCells cells = some r →
      r.name = cells.getD (p + 1) [] := by
  intro cells p r h1 h2
  have hne : cells.isEmpty = false := by
    cases cells with
    | nil => simp [positionScan] at h1
    | cons a l => rfl
  unfold parseRowCells at h2
  rw [hne, h1] at h2
  simp only [Bool.false_eq_true, if_false] at h2
  by_cases hlen : p + 2 + 8 ≤ cells.length
  · rw [if_pos hlen] at h2
    simp only [Option.some_inj] at h2
    subst h2
    rfl
  · rw [if_neg hlen] at h2
    simp at h2

/-- Witness for `name_taken_verbatim` at the empty-name row. -/
theorem name_taken_verbatim_witness :
    rec7.name = cells7w.getD 1 [] :=
  name_taken_verbatim cells7w 0 rec7 (by decide) (by decide)

/-- Counterexample to claim C7: a row whose name cell is empty is not
skipped; it yields a record with an empty name. -/
theorem empty_name_not_skipped_cex :
    rowToRecord emptyNameRow = some rec7 ∧ rec7.name = [] := by decide

/-- Claim C9, amended: a field-map key is bound exactly when some
schema field's effective display name — `displayName`, falling back to
`name` and then to `slug` through JavaScript truthiness — lower-cased
with all whitespace removed equals the key's target name; the bound
value is the slug of the last such field, and an unmatched key is
absent. -/
theorem buildFieldMap_characterisation :
    ∀ (fields : List SchemaField) (k : FMKey),
      fmGet (buildFieldMap fields) k =
        (List.getLast? (fields.filter
            (fun f => normNameJS (effectiveDisplayName f) == keyName k))).map
          SchemaField.slug := by
  intro fields k
  induction fields using List.reverseRecOn with
  | nil => cases k <;> rfl
  | append_singleton as a ih =>
    have hfold : buildFieldMap (as ++ [a]) = applyField (buildFieldMap as) a := by
      simp [buildFieldMap, List.foldl_append]
    rw [hfold, fmGet_applyField]
    by_cases hm : normNameJS (effectiveDisplayName a) = keyName k
    · simp [List.filter_append, hm, List.getLast?_concat]
    · simp [List.filter_append, hm, ih]

/-- Counterexample to claim C9: a schema field with no display name at
all (and no name) still binds the `points` key, through the fallback to
its slug. -/
theorem fieldmap_fallback_cex :
    fmGet (buildFieldMap exC9fields) FMKey.points = some "points" ∧
    exC9fields.all (fun f => f.displayName.isNone) = true := by decide

/-- Claim C10: the position scan accepts a cell whenever `parseInt`
of the cell — the value of its leading numeric prefix, regardless of
trailing non-digits — lies in 1..20; in particular `3-1` parses to 3
and `14/2` to 14. -/
theorem positionScan_accepts_numeric_lead :
    (∀ c cs v, parseIntJS c = some v → 0 < v → v ≤ 20 →
      positionScan (c :: cs) = some 0) ∧
    (∀ c0 c cs v, isPos c0 = false → parseIntJS c = some v → 0 < v → v ≤ 20 →
      positionScan (c0 :: c :: cs) = some 1) ∧
    (∀ c0 c1 c cs v, isPos c0 = false → isPos c1 = false →
      parseIntJS c = some v → 0 < v → v ≤ 20 →
      positionScan (c0 :: c1 :: c :: cs) = some 2) ∧
    parseIntJS (str "3-1") = some 3 ∧ parseIntJS (str "14/2") = some 14 := by
  have hpos : ∀ c v, parseIntJS c = some v → 0 < v → v ≤ 20 → isPos c = true := by
    intro c v hp h0 h20
    unfold isPos
    rw [hp]
    simp [h0, h20]
  refine ⟨?_, ?_, ?_, by decide, by decide⟩
  · intro c cs v hp h0 h20
    simp [positionScan, hpos c v hp h0 h20]
  · intro c0 c cs v hf hp h0 h20
    simp [positionScan, hf, hpos c v hp h0 h20]
  · intro c0 c1 c cs v hf0 hf1 hp h0 h20
    simp [positionScan, hf0, hf1, hpos c v hp h0 h20]

/-- Witness for `positionScan_accepts_numeric_lead` at the claim's two
cells. -/
theorem positionScan_accepts_numeric_lead_witness :
    positionScan [str "3-1"] = some 0 ∧
    positionScan [str "x", str "14/2"] = some 1 :=
  ⟨positionScan_accepts_numeric_lead.1 (str "3-1") [] 3
      (by decide) (by decide) (by decide),
   positionScan_accepts_numeric_lead.2.1 (str "x") (str "14/2") [] 14
      (by decide) (by decide) (by decide) (by decide)⟩

end NihlSync
